import Mathlib

/-!
Verification of the LineageViewer extraction-and-assembly engine.

This file gives a shallow embedding of the algorithmic core of
`fixed_comprehensive_extractor.py` (the clause splitter
`_parse_select_clause`, the classifier `_classify_transform`, the two-tier
regex match of `_parse_dbt_sql_file`) and of the lineage assembler in
`working_comprehensive_loader.py` (`create_job_lineage_event`,
`create_input_datasets`, `create_output_datasets`), together with proofs
and refutations of the specification's claims about them.

Strings are handled at the `List Char` level wherever the Python code
works character by character; Python's unbounded `int` is `Int`; Python
exceptions (the `ValueError` that `part.split(' AS ', 1)` unpacking can
raise) are `Except Unit`.  Character classes (`\s`, `\w`, `str.strip`,
`str.upper`, `str.lower`) are modelled on their ASCII behaviour, which is
all the repository's inputs exercise and which is used identically on
both sides of every comparison proved here.
-/

namespace LineageViewer

/-- Python whitespace for `str.strip` and the regex class `\s`
(ASCII part: space, tab, newline, carriage return, vertical tab, form feed). -/
def isPySpace (c : Char) : Bool :=
  c = ' ' || c = '\t' || c = '\n' || c = '\r' || c = Char.ofNat 11 || c = Char.ofNat 12

/-- Python `str.strip()` on the character list: drop whitespace from both ends. -/
def pyStrip (s : List Char) : List Char :=
  ((s.dropWhile isPySpace).reverse.dropWhile isPySpace).reverse

/-- Depth update of `_parse_select_clause` (fixed_comprehensive_extractor.py
lines 336-339): `(` increments, `)` decrements, all else leaves the counter. -/
def stepDepth (c : Char) (d : Int) : Int :=
  if c = '(' then d + 1 else if c = ')' then d - 1 else d

/-- The clause-splitting loop of `_parse_select_clause` (lines 327-343).
`cur` is `current_part`, `d` is `paren_count`.  A comma at depth exactly zero
emits the stripped current segment (even when empty); after the scan the
final segment is emitted only if non-empty after stripping. -/
def splitAux : List Char → List Char → Int → List (List Char)
  | [], cur, _ => if pyStrip cur = [] then [] else [pyStrip cur]
  | c :: rest, cur, d =>
    if c = ',' ∧ d = 0 then pyStrip cur :: splitAux rest [] d
    else splitAux rest (cur ++ [c]) (stepDepth c d)

/-- Number of commas the loop sees at parenthesis depth exactly zero,
threading the same depth counter as `splitAux`. -/
def countTopCommas : List Char → Int → Nat
  | [], _ => 0
  | c :: rest, d =>
    if c = ',' ∧ d = 0 then 1 + countTopCommas rest d
    else countTopCommas rest (stepDepth c d)

/-- The value of `current_part` when the scanning loop of
`_parse_select_clause` finishes: the text after the last depth-zero comma. -/
def finalCur : List Char → List Char → Int → List Char
  | [], cur, _ => cur
  | c :: rest, cur, d =>
    if c = ',' ∧ d = 0 then finalCur rest [] d
    else finalCur rest (cur ++ [c]) (stepDepth c d)

/-- The parenthesis depth after scanning a list of characters from depth 0. -/
def depthAfter (cs : List Char) : Int :=
  cs.foldl (fun d c => stepDepth c d) 0

/-- Balanced parentheses: the running depth never goes negative and ends at 0. -/
def balancedAux : List Char → Int → Bool
  | [], d => d = 0
  | c :: rest, d =>
    let d2 := stepDepth c d
    (0 ≤ d2) && balancedAux rest d2

/-- Python substring membership `pat in s` on character lists. -/
def containsSub (pat : List Char) : List Char → Bool
  | [] => pat = ([] : List Char)
  | c :: rest => pat.isPrefixOf (c :: rest) || containsSub pat rest

/-- Python `s.split(sep, 1)` when the separator occurs: the text before the
first occurrence and the text after it; `none` when the separator is absent
(in which case the Python two-variable unpacking raises `ValueError`). -/
def splitFirst (sep : List Char) : List Char → Option (List Char × List Char)
  | [] => none
  | c :: rest =>
    if sep.isPrefixOf (c :: rest) then some ([], (c :: rest).drop sep.length)
    else
      match splitFirst sep rest with
      | some p => some (c :: p.1, p.2)
      | none => none

/-- The per-segment alias step of `_parse_select_clause` (lines 345-355),
returning the `(key, value) = (alias, expression)` pair stored into the
`columns` dict, or an error for the `ValueError` that the unpacking
`transform, alias = part.split(' AS ', 1)` raises when the uppercased copy
contains `" AS "` but the original segment does not (e.g. a lowercase
`" as "`), since the split is performed on the original segment. -/
def aliasStep (part0 : List Char) : Except Unit (List Char × List Char) :=
  let part := pyStrip part0
  if containsSub (" AS ".data) (part.map Char.toUpper) then
    match splitFirst (" AS ".data) part with
    | some p => Except.ok (pyStrip p.2, pyStrip p.1)
    | none => Except.error ()
  else if containsSub (" as ".data) part then
    match splitFirst (" as ".data) part with
    | some p => Except.ok (pyStrip p.2, pyStrip p.1)
    | none => Except.error ()
  else Except.ok (part, part)

/-- Python dict assignment `d[k] = v`: overwrite in place when the key is
present (keeping its original position), otherwise append at the end. -/
def dictInsert {κ ν : Type} [DecidableEq κ] (d : List (κ × ν)) (k : κ) (v : ν) :
    List (κ × ν) :=
  if d.any (fun p => decide (p.1 = k)) then
    d.map (fun p => if p.1 = k then (k, v) else p)
  else d ++ [(k, v)]

/-- The `for part in parts` loop of `_parse_select_clause`, building the
`columns` dict; an alias-step error aborts the whole clause parse
(the exception propagates out of `_parse_select_clause`). -/
def buildColumns : List (List Char) → List (List Char × List Char) →
    Except Unit (List (List Char × List Char))
  | [], cols => Except.ok cols
  | p :: rest, cols =>
    match aliasStep p with
    | Except.ok kv => buildColumns rest (dictInsert cols kv.1 kv.2)
    | Except.error e => Except.error e

/-- `_parse_select_clause` (lines 322-357): split the projection list on
depth-zero commas, then run the alias extraction over each segment.
The result is the `columns` dict as an insertion-ordered association list. -/
def parseSelectClauseE (clause : List Char) :
    Except Unit (List (List Char × List Char)) :=
  buildColumns (splitAux clause [] 0) []

/-- First check of `_classify_transform`: an aggregation call. -/
def hasAggCall (s : List Char) : Bool :=
  let tl := s.map Char.toLower
  containsSub ("count(".data) tl || containsSub ("sum(".data) tl ||
    containsSub ("avg(".data) tl

/-- Second and third checks of `_classify_transform`: a string-function call. -/
def hasStringCall (s : List Char) : Bool :=
  let tl := s.map Char.toLower
  containsSub ("lower(".data) tl || containsSub ("upper(".data) tl ||
    containsSub ("regexp_replace(".data) tl || containsSub ("replace(".data) tl

/-- Fourth check of `_classify_transform`: a type-conversion call. -/
def hasCastCall (s : List Char) : Bool :=
  let tl := s.map Char.toLower
  containsSub ("to_timestamp(".data) tl || containsSub ("cast(".data) tl

/-- Fifth check of `_classify_transform`: a literal `group by`. -/
def hasGroupBy (s : List Char) : Bool :=
  containsSub ("group by".data) (s.map Char.toLower)

/-- Sixth check of `_classify_transform`: a literal `where`. -/
def hasWhere (s : List Char) : Bool :=
  containsSub ("where".data) (s.map Char.toLower)

/-- `_classify_transform` (lines 359-376): ordered substring checks over the
lowercased expression text, first match wins, defaulting to `"function"`. -/
def classifyTransform (s : List Char) : String :=
  let tl := s.map Char.toLower
  if containsSub ("count(".data) tl || containsSub ("sum(".data) tl ||
      containsSub ("avg(".data) tl then "aggregation"
  else if containsSub ("lower(".data) tl || containsSub ("upper(".data) tl then
    "string_function"
  else if containsSub ("regexp_replace(".data) tl ||
      containsSub ("replace(".data) tl then "string_function"
  else if containsSub ("to_timestamp(".data) tl || containsSub ("cast(".data) tl then
    "type_conversion"
  else if containsSub ("group by".data) tl then "group_by"
  else if containsSub ("where".data) tl then "filter"
  else "function"

/-- One Transform record as appended by the extractor
(`self.transforms.append({...})`); `input_table` is optional because the
schema-test records omit that key. -/
structure Transform where
  id : String
  file : String
  language : String
  layer : String
  table : String
  column : String
  transform_type : String
  transform : String
  input_table : Option String
  description : String
  deriving DecidableEq

/-- The record built at lines 125-136 of `_parse_dbt_sql_file` for one
`(col_name, transform)` item of the `columns` dict; `p.1` is the column
(dict key), `p.2` the expression (dict value), `tbl` the matched relation. -/
def mkDbtTransform (fileRel stem layer : String) (tbl : List Char)
    (p : List Char × List Char) : Transform :=
  { id := String.mk (("dbt_" ++ stem ++ "_").data ++ p.1)
  , file := fileRel
  , language := "dbt"
  , layer := layer
  , table := stem
  , column := String.mk p.1
  , transform_type := classifyTransform p.2
  , transform := String.mk p.2
  , input_table := some (String.mk tbl)
  , description := "dbt transform in " ++ stem }

/-- The `for col_name, transform in columns.items()` loop (lines 123-136):
append a record to the accumulated transform list exactly when the
expression text differs from the column text. -/
def emitLoop (fileRel stem layer : String) (tbl : List Char) :
    List (List Char × List Char) → List Transform → List Transform
  | [], acc => acc
  | p :: rest, acc =>
    emitLoop fileRel stem layer tbl rest
      (if p.2 ≠ p.1 then acc ++ [mkDbtTransform fileRel stem layer tbl p] else acc)

/-- Regex word character `\w` (ASCII part): letters, digits, underscore. -/
def isWordChar (c : Char) : Bool := c.isAlphanum || c = '_'

/-- Literal matching of a lowercase pattern at the head of the input;
`ci` selects the `re.IGNORECASE` comparison.  Returns the rest of the
input on success. -/
def matchLit (ci : Bool) : List Char → List Char → Option (List Char)
  | [], s => some s
  | _ :: _, [] => none
  | k :: ks, c :: cs =>
    if (if ci then c.toLower = k else c = k) then matchLit ci ks cs else none

/-- Length of the maximal run of characters satisfying `p` at the head. -/
def maxRun (p : Char → Bool) (s : List Char) : Nat := (s.takeWhile p).length

/-- The deterministic tail `\s+from\s+\w+` of the SELECT pattern at a fixed
position: each greedy piece is forced because the character classes of the
adjacent pieces are disjoint.  Returns the consumed length and the captured
`\w+` relation name. -/
def tailMatch (ci : Bool) (rest2 : List Char) : Option (Nat × List Char) :=
  let w2 := maxRun isPySpace rest2
  if w2 = 0 then none
  else
    match matchLit ci ("from".data) (rest2.drop w2) with
    | none => none
    | some rest4 =>
      let w3 := maxRun isPySpace rest4
      if w3 = 0 then none
      else
        let wd := maxRun isWordChar (rest4.drop w3)
        if wd = 0 then none
        else some (w2 + 4 + w3 + wd, (rest4.drop w3).takeWhile isWordChar)

/-- A match of `SELECT\s+(.*?)\s+FROM\s+(\w+)` (with `re.DOTALL`) anchored at
the head of `s`, following the regex engine's backtracking order: the first
`\s+` greedy (longest first), the lazy `(.*?)` shortest first.  Returns the
captured projection list, the captured relation and the total match length. -/
def matchSelectAt (ci : Bool) (s : List Char) : Option (List Char × List Char × Nat) :=
  match matchLit ci ("select".data) s with
  | none => none
  | some rest0 =>
    let w := maxRun isPySpace rest0
    if w = 0 then none
    else
      (List.range w).findSome? (fun k =>
        let w1 := w - k
        let rest1 := rest0.drop w1
        (List.range (rest1.length + 1)).findSome? (fun m =>
          match tailMatch ci (rest1.drop m) with
          | none => none
          | some r => some (rest1.take m, r.2, 6 + w1 + m + r.1)))

/-- `re.findall` scanning for the SELECT pattern: leftmost match first, then
continue after the end of the match.  Fuel is the remaining input length
(every match consumes at least one character). -/
def findallAux (ci : Bool) : Nat → List Char → List (List Char × List Char)
  | 0, _ => []
  | _ + 1, [] => []
  | fuel + 1, c :: cs =>
    match matchSelectAt ci (c :: cs) with
    | some r => (r.1, r.2.1) :: findallAux ci fuel ((c :: cs).drop r.2.2)
    | none => findallAux ci fuel cs

/-- All matches of the SELECT pattern in `s`; `ci = true` is the primary
case-insensitive pattern of line 113, `ci = false` the strict-lowercase
secondary pattern of line 118. -/
def findall (ci : Bool) (s : List Char) : List (List Char × List Char) :=
  findallAux ci s.length s

/-- The two-tier match policy of `_parse_dbt_sql_file` (lines 113-119):
use the case-insensitive matches; if there are none, fall back to the
strict-lowercase pattern. -/
def twoTierMatches (s : List Char) : List (List Char × List Char) :=
  let ms := findall true s
  if ms = [] then findall false s else ms

/-- The `for select_clause, from_table in matches` loop (lines 121-136) over
the accumulated transform list.  A clause whose parse raises aborts the
loop (the exception is caught by the file-level handler at line 146), but
records appended by earlier iterations remain in the accumulator. -/
def processMatches (fileRel stem layer : String) :
    List (List Char × List Char) → List Transform → List Transform
  | [], acc => acc
  | m :: rest, acc =>
    match parseSelectClauseE m.1 with
    | Except.error _ => acc
    | Except.ok cols =>
      processMatches fileRel stem layer rest
        (emitLoop fileRel stem layer m.2 cols acc)

/-- `_parse_dbt_sql_file` (lines 101-147) restricted to its effect on the
transform accumulator: two-tier matching, then the per-match loop, with the
file-level exception handler absorbing any error. -/
def parseDbtSqlFile (fileRel stem layer : String) (content : List Char)
    (acc : List Transform) : List Transform :=
  processMatches fileRel stem layer (twoTierMatches content) acc

/-- File content making `_parse_dbt_sql_file` raise after appending a record:
the first SELECT emits one transform, the second one raises `ValueError`
inside the alias step on its lowercase `as`. -/
def c5content : String := "SELECT SUM(a) AS b FROM t SELECT c as d FROM u"

/-- File content producing two distinct Transform records with equal ids:
both SELECT clauses alias a computation to the same column name `b`. -/
def c6content : String := "SELECT SUM(a) AS b FROM t SELECT COUNT(c) AS b FROM u"

/-- `total_transforms` of the extraction result (line 35):
the length of the accumulated transform list. -/
def totalTransforms {α : Type} (ts : List α) : Nat := ts.length

/-- A transform record as consumed by the loader (a Python dict accessed with
`.get` and `in`), so every field is optional. -/
structure LT where
  input_table : Option String
  table : Option String
  column : Option String
  transform_type : Option String
  transform : Option String
  description : Option String
  deriving DecidableEq

/-- Python `str.upper()` (ASCII behaviour). -/
def pyUpper (s : String) : String := String.mk (s.data.map Char.toUpper)

/-- The column name used for entry `i`:
`transform.get('column', f'column_{i}')` (line 342 of the loader). -/
def keyAt (i : Nat) (t : LT) : String := t.column.getD ("column_" ++ toString i)

/-- One ColumnLineageEntry value of `create_output_datasets` (lines 347-367). -/
structure FieldDef where
  inputFields : List (String × String × String)
  transformationType : String
  transformationDescription : String
  transformation : String
  deriving DecidableEq

/-- The ColumnLineageEntry built for transform `t` at enumeration index `i`:
input field references from `input_table` (defaulting to the synthetic
`raw_data.data` reference), plus the uppercased classification tag. -/
def mkFieldDef (i : Nat) (t : LT) : FieldDef :=
  { inputFields :=
      match t.input_table with
      | some it => [("data_pipeline", it, keyAt i t)]
      | none => [("data_pipeline", "raw_data", "data")]
  , transformationType := pyUpper (t.transform_type.getD "function")
  , transformationDescription := t.description.getD ""
  , transformation := t.transform.getD "" }

/-- The transform filter of `create_output_datasets` (line 337): a record
matches a dataset when its `table` equals the dataset name or one of the
generic dataframe sentinels. -/
def ltMatchesDataset (n : String) (t : LT) : Bool :=
  decide (t.table = some n) || decide (t.table = some "spark_dataframe") ||
    decide (t.table = some "dataframe")

/-- The `field_definitions` dict built by the
`for i, transform in enumerate(dataset_transforms[:10])` loop
(lines 340-367): entries are keyed by column name, so later records with a
repeated column name overwrite earlier ones. -/
def buildFieldDefs (l : List LT) : List (String × FieldDef) :=
  l.enum.foldl (fun d p => dictInsert d (keyAt p.1 p.2) (mkFieldDef p.1 p.2)) []

/-- The column keys, in enumeration order, that `buildFieldDefs` inserts. -/
def fieldKeys (l : List LT) : List String :=
  l.enum.map (fun p => keyAt p.1 p.2)

/-- The ColumnLineageEntry map materialized for one output dataset:
filter to the matching records, truncate to the first 10, build the dict. -/
def fieldDefsFor (n : String) (ts : List LT) : List (String × FieldDef) :=
  buildFieldDefs ((ts.filter (ltMatchesDataset n)).take 10)

/-- One input dataset of the event (`create_input_datasets`, lines 310-329);
the schema facet is a constant, so only the name varies. -/
structure InputDS where
  name : String
  deriving DecidableEq

/-- One output dataset of the event (`create_output_datasets`, lines 369-393):
the schema fields are the dict keys, and the field-definitions facet carries
the ColumnLineageEntry map (present only when non-empty). -/
structure OutputDS where
  name : String
  schemaFields : List String
  fieldDefs : List (String × FieldDef)
  deriving DecidableEq

/-- `create_input_datasets`: one dataset record per name. -/
def createInputDatasets (names : List String) : List InputDS :=
  names.map (fun n => { name := n })

/-- `create_output_datasets`: one dataset record per name, with its
ColumnLineageEntry map drawn from the matching transforms. -/
def createOutputDatasets (names : List String) (ts : List LT) : List OutputDS :=
  names.map (fun n =>
    { name := n
    , schemaFields := (fieldDefsFor n ts).map Prod.fst
    , fieldDefs := fieldDefsFor n ts })

/-- Python `set.add` on an insertion-ordered list model. -/
def setInsert (s : List String) (x : String) : List String :=
  if x ∈ s then s else s ++ [x]

/-- The dataset-collection loop of `create_job_lineage_event` (lines 260-264):
one pass over the transforms, adding `input_table` values to the input set
and `table` values to the output set when the keys are present. -/
def collectTables (ts : List LT) : List String × List String :=
  ts.foldl
    (fun acc t =>
      (match t.input_table with | some v => setInsert acc.1 v | none => acc.1,
       match t.table with | some v => setInsert acc.2 v | none => acc.2))
    ([], [])

/-- The input and output dataset lists of the assembled lineage event
(lines 266-299): synthesize `raw_data` and `<job>_output` when the
collected sets are empty, then materialize the dataset records. -/
def jobEventSets (jobName : String) (ts : List LT) :
    List InputDS × List OutputDS :=
  let c := collectTables ts
  let ins := if c.1 = [] then ["raw_data"] else c.1
  let outs := if c.2 = [] then [jobName ++ "_output"] else c.2
  (createInputDatasets ins, createOutputDatasets outs ts)

/-- A loader-side record shaped like every Spark-parser transform: the owner
table is the `spark_dataframe` sentinel and the column is `multiple`. -/
def sparkLT : LT :=
  { input_table := none
  , table := some "spark_dataframe"
  , column := some "multiple"
  , transform_type := some "spark_operation"
  , transform := some "filter(x)"
  , description := some "Spark filter operation" }

/-- A loader-side record for dataset `d` with the given column name. -/
def mkLT (c : String) : LT :=
  { input_table := none
  , table := some "d"
  , column := some c
  , transform_type := some "spark_operation"
  , transform := some "f(x)"
  , description := some "op" }

/-- Fifteen records for dataset `d` with pairwise distinct column names. -/
def ex15 : List LT :=
  (["a", "b", "c", "e", "f", "g", "h", "i", "j", "k", "l", "m", "n", "o", "p"]).map mkLT

/-- The number of segments the splitting loop emits is the number of
depth-zero commas it sees, plus one more segment exactly when the final
pending buffer is non-empty after stripping. -/
theorem splitAux_length (cs : List Char) : ∀ (cur : List Char) (d : Int),
    (splitAux cs cur d).length =
      countTopCommas cs d + (if pyStrip (finalCur cs cur d) = [] then 0 else 1) := by
  induction cs with
  | nil =>
    intro cur d
    simp only [splitAux, countTopCommas, finalCur]
    by_cases h : pyStrip cur = [] <;> simp [h]
  | cons c rest ih =>
    intro cur d
    by_cases h : c = ',' ∧ d = 0
    · simp only [splitAux, countTopCommas, finalCur, if_pos h, List.length_cons, ih]
      omega
    · simp only [splitAux, countTopCommas, finalCur, if_neg h, ih]

/-- The comma counter decomposes over an append, threading the depth. -/
theorem countTopCommas_append (u v : List Char) : ∀ d : Int,
    countTopCommas (u ++ v) d =
      countTopCommas u d + countTopCommas v (u.foldl (fun x c => stepDepth c x) d) := by
  induction u with
  | nil => intro d; simp [countTopCommas]
  | cons c rest ih =>
    intro d
    by_cases h : c = ',' ∧ d = 0
    · have hc : stepDepth c d = d := by
        rcases h with ⟨h1, _⟩
        subst h1
        rfl
      simp only [List.cons_append, countTopCommas, if_pos h, List.append_eq, ih,
        List.foldl_cons, hc]
      omega
    · simp only [List.cons_append, countTopCommas, if_neg h, List.append_eq, ih,
        List.foldl_cons]

/-- The running depth equals the number of `(` minus the number of `)` seen. -/
theorem depthFold_eq (u : List Char) : ∀ d : Int,
    u.foldl (fun x c => stepDepth c x) d =
      d + (u.count '(' : Int) - (u.count ')' : Int) := by
  induction u with
  | nil => intro d; simp
  | cons c rest ih =>
    intro d
    rw [List.foldl_cons, ih]
    rcases eq_or_ne c '(' with h1 | h1
    · subst h1
      rw [List.count_cons_self, List.count_cons_of_ne (by decide)]
      simp only [stepDepth, if_pos rfl]
      push_cast
      ring
    · rcases eq_or_ne c ')' with h2 | h2
      · subst h2
        rw [List.count_cons_self, List.count_cons_of_ne (by decide)]
        simp only [stepDepth, if_neg (by decide : ¬ (')' : Char) = '('), if_pos rfl]
        push_cast
        ring
      · rw [List.count_cons_of_ne (Ne.symm h1), List.count_cons_of_ne (Ne.symm h2)]
        simp only [stepDepth, if_neg h1, if_neg h2]

/-- Claim C1 is false as stated: the input `"a,"` has balanced parentheses
and one depth-zero comma, so the claim predicts two segments, but the loop
emits only one because the final pending segment is empty after stripping
and line 342 only emits a non-empty final segment. -/
theorem spec_c1_cex :
    balancedAux ("a,".data) 0 = true ∧ countTopCommas ("a,".data) 0 = 1 ∧
      (splitAux ("a,".data) [] 0).length = 1 ∧
      (splitAux ("a,".data) [] 0).length ≠ countTopCommas ("a,".data) 0 + 1 := by
  refine ⟨rfl, rfl, rfl, ?_⟩
  decide

/-- Claim C1 (amended): for every projection-list string with balanced
parentheses whose text after the last depth-zero comma is not whitespace-only,
the clause-splitting loop of `_parse_select_clause` produces exactly `k`
segments, where `k` is the number of depth-zero commas plus one, regardless
of comma nesting inside parentheses. -/
theorem spec_c1_amended (cs : List Char) (hbal : balancedAux cs 0 = true)
    (hlast : pyStrip (finalCur cs [] 0) ≠ []) :
    (splitAux cs [] 0).length = countTopCommas cs 0 + 1 := by
  have h := splitAux_length cs [] 0
  rw [if_neg hlast] at h
  exact h

/-- Witness for `spec_c1_amended` at the projection list `"SUM(a,b) AS x, c"`:
one depth-zero comma, a nested comma, two segments. -/
theorem spec_c1_amended_wit :
    (splitAux ("SUM(a,b) AS x, c".data) [] 0).length =
      countTopCommas ("SUM(a,b) AS x, c".data) 0 + 1 :=
  spec_c1_amended ("SUM(a,b) AS x, c".data) (by decide) (by decide)

/-- Claim C10: the depth counter is the count of `(` minus the count of `)`
and so goes negative after unmatched closing parentheses; a comma preceded
by more `)` than `(` is at nonzero depth, hence not counted as a separator,
and the segment count follows the depth-zero comma count that excludes it;
concretely, `")a,b"` stays one single segment. -/
theorem spec_c10 (u v : List Char) (h : u.count '(' < u.count ')') :
    depthAfter u < 0 ∧
      countTopCommas (u ++ ',' :: v) 0 =
        countTopCommas u 0 + countTopCommas v (depthAfter u) ∧
      (splitAux (u ++ ',' :: v) [] 0).length =
        countTopCommas u 0 + countTopCommas v (depthAfter u) +
          (if pyStrip (finalCur (u ++ ',' :: v) [] 0) = [] then 0 else 1) ∧
      splitAux (")a,b".data) [] 0 = [")a,b".data] := by
  have hd : depthAfter u = (u.count '(' : Int) - (u.count ')' : Int) := by
    rw [depthAfter, depthFold_eq]
    ring
  have hneg : depthAfter u < 0 := by
    rw [hd]
    omega
  have hstep : stepDepth ',' (depthAfter u) = depthAfter u := by
    rw [stepDepth, if_neg (by decide), if_neg (by decide)]
  have h2 : countTopCommas (u ++ ',' :: v) 0 =
      countTopCommas u 0 + countTopCommas v (depthAfter u) := by
    rw [countTopCommas_append]
    have hfold : u.foldl (fun x c => stepDepth c x) 0 = depthAfter u := rfl
    rw [hfold, countTopCommas, if_neg (fun hc => absurd hc.2 (by omega)), hstep]
  refine ⟨hneg, h2, ?_, by decide⟩
  rw [splitAux_length, h2]

/-- Witness for `spec_c10` at `u = ")a"`, `v = "b"`: the unmatched `)` makes
the depth negative, so the comma of `")a,b"` does not separate. -/
theorem spec_c10_wit :
    depthAfter (")a".data) < 0 ∧
      countTopCommas ((")a".data) ++ ',' :: ("b".data)) 0 =
        countTopCommas (")a".data) 0 + countTopCommas ("b".data) (depthAfter (")a".data)) :=
  ⟨(spec_c10 (")a".data) ("b".data) (by decide)).1,
    (spec_c10 (")a".data) ("b".data) (by decide)).2.1⟩

/-- The classifier chain collapses to one ordered first-match-wins cascade
over the five named categories (the two string-function branches merge). -/
theorem classify_eq (s : List Char) :
    classifyTransform s =
      (if hasAggCall s then "aggregation"
       else if hasStringCall s then "string_function"
       else if hasCastCall s then "type_conversion"
       else if hasGroupBy s then "group_by"
       else if hasWhere s then "filter"
       else "function") := by
  simp only [classifyTransform, hasAggCall, hasStringCall, hasCastCall, hasGroupBy,
    hasWhere, Bool.or_eq_true]
  split_ifs <;> first | rfl | tauto

/-- Claim C2: `_classify_transform` applies its substring checks over the
lowercased text in the fixed order aggregation, string_function,
type_conversion, group_by, filter, with default `"function"`, and the first
matching check wins; in particular any expression containing an aggregation
call classifies as `"aggregation"` regardless of a cast being present. -/
theorem spec_c2 (s : List Char) :
    (hasAggCall s = true → classifyTransform s = "aggregation") ∧
      (hasAggCall s = false → hasStringCall s = true →
        classifyTransform s = "string_function") ∧
      (hasAggCall s = false → hasStringCall s = false → hasCastCall s = true →
        classifyTransform s = "type_conversion") ∧
      (hasAggCall s = false → hasStringCall s = false → hasCastCall s = false →
        hasGroupBy s = true → classifyTransform s = "group_by") ∧
      (hasAggCall s = false → hasStringCall s = false → hasCastCall s = false →
        hasGroupBy s = false → hasWhere s = true → classifyTransform s = "filter") ∧
      (hasAggCall s = false → hasStringCall s = false → hasCastCall s = false →
        hasGroupBy s = false → hasWhere s = false → classifyTransform s = "function") := by
  rw [classify_eq]
  refine ⟨fun h1 => ?_, fun h1 h2 => ?_, fun h1 h2 h3 => ?_, fun h1 h2 h3 h4 => ?_,
      fun h1 h2 h3 h4 h5 => ?_, fun h1 h2 h3 h4 h5 => ?_⟩ <;>
    simp_all

/-- Witness for `spec_c2`: the specification's example expression containing
both an aggregation call and a cast call classifies as aggregation. -/
theorem spec_c2_wit : classifyTransform ("CAST(SUM(x) AS INT)".data) = "aggregation" :=
  (spec_c2 ("CAST(SUM(x) AS INT)".data)).1 (by decide)

/-- Claim C3 names a code bug: on the lowercase-aliased segment `"c as d"`
the alias step raises `ValueError` (the uppercase-copy membership test takes
the first branch, but the split on `" AS "` over the original segment finds
no separator, so the two-variable unpacking fails), while the uppercase
`"c AS d"` splits as intended; the case-insensitive never-raising behaviour
the claim describes is what the dead `elif ' as '` branch was meant to give. -/
theorem spec_c3_eval :
    parseSelectClauseE ("c as d".data) = Except.error () ∧
      parseSelectClauseE ("c AS d".data) = Except.ok [("d".data, "c".data)] ∧
      aliasStep ("c as d".data) = Except.error () ∧
      aliasStep ("name".data) = Except.ok (("name".data), ("name".data)) :=
  ⟨rfl, rfl, rfl, rfl⟩

/-- The items loop of `_parse_dbt_sql_file` appends, after the incoming
accumulator, exactly the records of the pairs whose expression differs from
their column, in order. -/
theorem emitLoop_eq_append (fileRel stem layer : String) (tbl : List Char) :
    ∀ (cols : List (List Char × List Char)) (acc : List Transform),
      emitLoop fileRel stem layer tbl cols acc =
        acc ++ (cols.filter (fun p => decide (p.2 ≠ p.1))).map
          (mkDbtTransform fileRel stem layer tbl) := by
  intro cols
  induction cols with
  | nil => intro acc; simp [emitLoop]
  | cons p rest ih =>
    intro acc
    by_cases h : p.2 = p.1
    · simp [emitLoop, h, ih]
    · simp [emitLoop, h, ih]

/-- Two pairs built into the same Transform record agree on column and
expression, hence are equal. -/
theorem mkDbtTransform_inj (fileRel stem layer : String) (tbl : List Char)
    {p q : List Char × List Char}
    (h : mkDbtTransform fileRel stem layer tbl p = mkDbtTransform fileRel stem layer tbl q) :
    p = q := by
  have h1 := congrArg (fun t => (Transform.column t).data) h
  have h2 := congrArg (fun t => (Transform.transform t).data) h
  simp only [mkDbtTransform] at h1 h2
  exact Prod.ext h1 h2

/-- Claim C4: the sql-model parser appends a Transform for a
`(column, expression)` pair of the clause splitter if and only if the
expression text differs from the column text; a self-aliased bare column
reference never yields a record. -/
theorem spec_c4 (fileRel stem layer : String) (tbl : List Char)
    (cols : List (List Char × List Char)) (acc : List Transform) :
    emitLoop fileRel stem layer tbl cols acc =
      acc ++ (cols.filter (fun p => decide (p.2 ≠ p.1))).map
        (mkDbtTransform fileRel stem layer tbl) ∧
      (∀ p ∈ cols, p.2 = p.1 →
        mkDbtTransform fileRel stem layer tbl p ∉ emitLoop fileRel stem layer tbl cols []) := by
  refine ⟨emitLoop_eq_append fileRel stem layer tbl cols acc, ?_⟩
  intro p hp hself hmem
  rw [emitLoop_eq_append, List.nil_append] at hmem
  obtain ⟨q, hqf, hqe⟩ := List.mem_map.1 hmem
  obtain ⟨hq, hqne⟩ := List.mem_filter.1 hqf
  have hpq : q = p := mkDbtTransform_inj fileRel stem layer tbl hqe
  rw [hpq] at hqne
  exact (of_decide_eq_true hqne) hself

/-- Witness for `spec_c4`: the bare column segment `"name"`, whose pair is
self-aliased, yields no Transform record. -/
theorem spec_c4_wit :
    mkDbtTransform "models/staging/m.sql" "m" "staging" ("t".data)
        (("name".data), ("name".data)) ∉
      emitLoop "models/staging/m.sql" "m" "staging" ("t".data)
        [(("name".data), ("name".data))] [] :=
  (spec_c4 "models/staging/m.sql" "m" "staging" ("t".data)
    [(("name".data), ("name".data))] []).2 _ (by simp) rfl

/-- Overwriting an existing key leaves the key list of the dict unchanged. -/
theorem dictInsert_keys_mem {κ ν : Type} [DecidableEq κ] (d : List (κ × ν)) (k : κ) (v : ν)
    (h : k ∈ d.map Prod.fst) :
    (dictInsert d k v).map Prod.fst = d.map Prod.fst := by
  rw [dictInsert, if_pos]
  · rw [List.map_map]
    apply List.map_congr_left
    intro p _
    by_cases hpk : p.1 = k <;> simp [hpk]
  · obtain ⟨p, hp, hpk⟩ := List.mem_map.1 h
    rw [List.any_eq_true]
    exact ⟨p, hp, by simp [hpk]⟩

/-- Inserting a fresh key appends it to the key list of the dict. -/
theorem dictInsert_keys_not_mem {κ ν : Type} [DecidableEq κ] (d : List (κ × ν)) (k : κ) (v : ν)
    (h : k ∉ d.map Prod.fst) :
    (dictInsert d k v).map Prod.fst = d.map Prod.fst ++ [k] := by
  rw [dictInsert, if_neg]
  · simp
  · rw [List.any_eq_true]
    rintro ⟨p, hp, hpk⟩
    exact h (List.mem_map.2 ⟨p, hp, of_decide_eq_true hpk⟩)

/-- A dict assignment preserves distinctness of the keys. -/
theorem dictInsert_keys_nodup {κ ν : Type} [DecidableEq κ] (d : List (κ × ν)) (k : κ) (v : ν)
    (h : (d.map Prod.fst).Nodup) : ((dictInsert d k v).map Prod.fst).Nodup := by
  by_cases hk : k ∈ d.map Prod.fst
  · rw [dictInsert_keys_mem d k v hk]
    exact h
  · rw [dictInsert_keys_not_mem d k v hk]
    simp [List.nodup_append, h, hk]

/-- The `columns` dict of a successful clause parse has pairwise distinct
keys: duplicate aliases are overwritten, never duplicated. -/
theorem buildColumns_keys_nodup :
    ∀ (parts : List (List Char)) (cols res : List (List Char × List Char)),
      (cols.map Prod.fst).Nodup → buildColumns parts cols = Except.ok res →
      (res.map Prod.fst).Nodup := by
  intro parts
  induction parts with
  | nil =>
    intro cols res h he
    rw [buildColumns] at he
    cases he
    exact h
  | cons p rest ih =>
    intro cols res h he
    cases ha : aliasStep p with
    | error e => simp [buildColumns, ha] at he
    | ok kv =>
      simp only [buildColumns, ha] at he
      exact ih _ _ (dictInsert_keys_nodup _ _ _ h) he

/-- Claim C6 is false as stated: the file content
`"SELECT SUM(a) AS b FROM t SELECT COUNT(c) AS b FROM u"` yields two
distinct Transform records that share the id `"dbt_m_b"`, because the
sql-model id `dbt_<stem>_<column>` carries no ordinal index. -/
theorem spec_c6_cex :
    (parseDbtSqlFile "models/staging/m.sql" "m" "staging" (c6content.data) []).map
        Transform.id = ["dbt_m_b", "dbt_m_b"] ∧
      ¬ ((parseDbtSqlFile "models/staging/m.sql" "m" "staging" (c6content.data) []).map
        Transform.id).Nodup ∧
      (parseDbtSqlFile "models/staging/m.sql" "m" "staging" (c6content.data) []).Nodup := by
  have h1 : (parseDbtSqlFile "models/staging/m.sql" "m" "staging" (c6content.data) []).map
      Transform.id = ["dbt_m_b", "dbt_m_b"] := rfl
  refine ⟨h1, ?_, ?_⟩
  · rw [h1]
    decide
  · decide

/-- Claim C6 (amended): ids are unique among the records emitted from a
single SELECT clause match of the sql-model parser, because the `columns`
dict keys are distinct and the id is determined by the column key under a
fixed file stem. -/
theorem spec_c6_amended (fileRel stem layer : String) (tbl : List Char)
    (clause : List Char) (cols : List (List Char × List Char))
    (h : parseSelectClauseE clause = Except.ok cols) :
    ((emitLoop fileRel stem layer tbl cols []).map Transform.id).Nodup := by
  have hk : (cols.map Prod.fst).Nodup :=
    buildColumns_keys_nodup _ _ _ (by simp) h
  rw [emitLoop_eq_append, List.nil_append, List.map_map]
  have hpw : cols.Pairwise (fun p q => p.1 ≠ q.1) := by
    have := (List.pairwise_map (f := Prod.fst)).1 hk
    exact this
  have hpf : (cols.filter (fun p => decide (p.2 ≠ p.1))).Pairwise (fun p q => p.1 ≠ q.1) :=
    hpw.sublist (List.filter_sublist _)
  show ((cols.filter (fun p => decide (p.2 ≠ p.1))).map _).Pairwise _
  rw [List.pairwise_map]
  refine hpf.imp ?_
  intro p q hne heq
  apply hne
  have h2 := congrArg String.data heq
  simp only [Function.comp, mkDbtTransform] at h2
  exact List.append_cancel_left h2

/-- Witness for `spec_c6_amended` at the clause `"SUM(a) AS b, c"`. -/
theorem spec_c6_amended_wit :
    ((emitLoop "models/staging/m.sql" "m" "staging" ("t".data)
        [(("b".data), ("SUM(a)".data)), (("c".data), ("c".data))] []).map
      Transform.id).Nodup :=
  spec_c6_amended "models/staging/m.sql" "m" "staging" ("t".data)
    ("SUM(a) AS b, c".data)
    [(("b".data), ("SUM(a)".data)), (("c".data), ("c".data))] rfl

/-- Earlier records are never removed: the incoming accumulator is a prefix
of what the per-match loop returns, whether or not a clause parse raises. -/
theorem processMatches_extends (fileRel stem layer : String) :
    ∀ (ms : List (List Char × List Char)) (acc : List Transform),
      acc <+: processMatches fileRel stem layer ms acc := by
  intro ms
  induction ms with
  | nil =>
    intro acc
    simp [processMatches]
  | cons m rest ih =>
    intro acc
    cases h : parseSelectClauseE m.1 with
    | error e => simp [processMatches, h]
    | ok cols =>
      simp only [processMatches, h]
      refine List.IsPrefix.trans ?_ (ih _)
      rw [emitLoop_eq_append]
      exact ⟨_, rfl⟩

/-- Claim C5 is false as stated: parsing `c5content` raises on its second
SELECT clause (the lowercase `as` ValueError), the exception is caught at
file level, yet the file still contributes one Transform record appended by
the first clause before the raise — the accumulated list is not unchanged. -/
theorem spec_c5_cex :
    (twoTierMatches (c5content.data)).map (fun p => String.mk p.1) =
        ["SUM(a) AS b", "c as d"] ∧
      parseSelectClauseE ("c as d".data) = Except.error () ∧
      (parseDbtSqlFile "models/staging/m.sql" "m" "staging" (c5content.data) []).length = 1 := by
  exact ⟨rfl, rfl, rfl⟩

/-- Claim C5 (amended): an exception while parsing one file is caught at
file level so extraction continues and previously accumulated records are
preserved (the accumulator is always a prefix of the result), and a file
contributes zero records exactly when the exception occurs before any
append — e.g. when already the first SELECT clause fails to parse; records
appended before the exception point remain. -/
theorem spec_c5_amended (fileRel stem layer : String) (content : List Char)
    (acc : List Transform) :
    acc <+: parseDbtSqlFile fileRel stem layer content acc ∧
      (∀ (m : List Char × List Char) (rest : List (List Char × List Char))
          (acc2 : List Transform), parseSelectClauseE m.1 = Except.error () →
          processMatches fileRel stem layer (m :: rest) acc2 = acc2) := by
  constructor
  · exact processMatches_extends fileRel stem layer _ acc
  · intro m rest acc2 h
    simp [processMatches, h]

/-- Witness for `spec_c5_amended`: a file whose single SELECT clause raises
contributes nothing. -/
theorem spec_c5_amended_wit :
    processMatches "models/staging/m.sql" "m" "staging"
      [(("c as d").data, ("u").data)] [] = [] :=
  (spec_c5_amended "models/staging/m.sql" "m" "staging" [] []).2
    (("c as d").data, ("u").data) [] [] rfl

/-- A dict assignment grows the dict by at most one entry. -/
theorem dictInsert_length {κ ν : Type} [DecidableEq κ] (d : List (κ × ν)) (k : κ) (v : ν) :
    (dictInsert d k v).length ≤ d.length + 1 := by
  rw [dictInsert]
  split_ifs <;> simp

/-- The field-definitions fold grows the dict by at most one per record. -/
theorem buildFold_length_le :
    ∀ (xs : List (Nat × LT)) (d : List (String × FieldDef)),
      (xs.foldl (fun d p => dictInsert d (keyAt p.1 p.2) (mkFieldDef p.1 p.2)) d).length ≤
        d.length + xs.length := by
  intro xs
  induction xs with
  | nil => intro d; simp
  | cons x rest ih =>
    intro d
    rw [List.foldl_cons]
    calc (rest.foldl _ (dictInsert d (keyAt x.1 x.2) (mkFieldDef x.1 x.2))).length ≤
        (dictInsert d (keyAt x.1 x.2) (mkFieldDef x.1 x.2)).length + rest.length := ih _
      _ ≤ d.length + 1 + rest.length :=
        Nat.add_le_add_right (dictInsert_length d _ _) rest.length
      _ = d.length + (x :: rest).length := by simp; omega

/-- When the keys to be inserted are pairwise distinct and fresh for the
starting dict, every insertion appends and the dict length adds up. -/
theorem buildFold_length_eq :
    ∀ (xs : List (Nat × LT)) (d : List (String × FieldDef)),
      (d.map Prod.fst ++ xs.map (fun p => keyAt p.1 p.2)).Nodup →
      (xs.foldl (fun d p => dictInsert d (keyAt p.1 p.2) (mkFieldDef p.1 p.2)) d).length =
        d.length + xs.length := by
  intro xs
  induction xs with
  | nil => intro d _; simp
  | cons x rest ih =>
    intro d h
    rw [List.foldl_cons]
    have hk : keyAt x.1 x.2 ∉ d.map Prod.fst := by
      intro hmem
      rw [List.nodup_append] at h
      exact h.2.2 hmem (by simp)
    have hkeys := dictInsert_keys_not_mem d (keyAt x.1 x.2) (mkFieldDef x.1 x.2) hk
    have hlen : (dictInsert d (keyAt x.1 x.2) (mkFieldDef x.1 x.2)).length = d.length + 1 := by
      have := congrArg List.length hkeys
      simpa using this
    have hnodup2 : ((dictInsert d (keyAt x.1 x.2) (mkFieldDef x.1 x.2)).map Prod.fst ++
        rest.map (fun p => keyAt p.1 p.2)).Nodup := by
      rw [hkeys, List.append_assoc]
      simpa using h
    rw [ih _ hnodup2, hlen]
    simp
    omega

/-- Claim C7 is false as stated: fifteen raw Transform records for the
`spark_dataframe` output dataset, all carrying the column sentinel
`multiple`, materialize a single ColumnLineageEntry (the field-definitions
dict is keyed by column name), not ten; the fifteen records still count in
the aggregate total. -/
theorem spec_c7_cex :
    (List.replicate 15 sparkLT).length = 15 ∧
      (fieldDefsFor "spark_dataframe" (List.replicate 15 sparkLT)).length = 1 ∧
      (fieldDefsFor "spark_dataframe" (List.replicate 15 sparkLT)).length ≠ 10 ∧
      totalTransforms (List.replicate 15 sparkLT) = 15 := by
  refine ⟨by decide, rfl, ?_, by decide⟩
  decide

/-- Claim C7 (amended): each output dataset materializes at most 10
ColumnLineageEntries, and exactly one per retained record — hence exactly 10
for a dataset with 15 matching records — provided the first 10 matching
records carry pairwise distinct column keys; entries are keyed by column
name, so duplicate columns collapse; aggregate statistics still count every
record of the transform list. -/
theorem spec_c7_amended (n : String) (ts : List LT)
    (h : (fieldKeys ((ts.filter (ltMatchesDataset n)).take 10)).Nodup) :
    (fieldDefsFor n ts).length ≤ 10 ∧
      (fieldDefsFor n ts).length = ((ts.filter (ltMatchesDataset n)).take 10).length ∧
      totalTransforms ts = ts.length := by
  have hlen : (fieldDefsFor n ts).length =
      ((ts.filter (ltMatchesDataset n)).take 10).length := by
    rw [fieldDefsFor, buildFieldDefs, buildFold_length_eq _ [] (by simpa [fieldKeys] using h)]
    simp [List.enum_length]
  refine ⟨?_, hlen, rfl⟩
  rw [hlen]
  calc ((ts.filter (ltMatchesDataset n)).take 10).length ≤ 10 := List.length_take_le 10 _

/-- Witness for `spec_c7_amended`: fifteen records with distinct columns for
dataset `d` expose exactly ten entries while fifteen are counted. -/
theorem spec_c7_amended_wit :
    (fieldDefsFor "d" ex15).length = 10 ∧ totalTransforms ex15 = 15 := by
  have h := spec_c7_amended "d" ex15 (by decide)
  refine ⟨?_, by decide⟩
  rw [h.2.1]
  decide

/-- The dataset-collection fold returns empty sets over records that carry
neither an `input_table` nor a `table` key. -/
theorem collectTables_nil_of (ts : List LT)
    (h : ∀ t ∈ ts, t.input_table = none ∧ t.table = none) :
    collectTables ts = ([], []) := by
  rw [collectTables]
  have haux : ∀ (l : List LT) (acc : List String × List String),
      (∀ t ∈ l, t.input_table = none ∧ t.table = none) →
      l.foldl (fun acc t =>
        (match t.input_table with | some v => setInsert acc.1 v | none => acc.1,
         match t.table with | some v => setInsert acc.2 v | none => acc.2)) acc = acc := by
    intro l
    induction l with
    | nil => intro acc _; rfl
    | cons t rest ih =>
      intro acc h2
      have h3 := h2 t (by simp)
      rw [List.foldl_cons]
      rw [h3.1, h3.2]
      exact ih acc (fun u hu => h2 u (by simp [hu]))
  exact haux ts ([], []) h

/-- Claim C8: a job whose transform records identify no input tables and no
output tables — in particular a job with an empty transform list — is
assembled with exactly the one synthesized input dataset `raw_data` and the
one synthesized output dataset `<job>_output`; and no job is ever assembled
with an empty input list or an empty output list. -/
theorem spec_c8 (job : String) (ts : List LT)
    (h : ∀ t ∈ ts, t.input_table = none ∧ t.table = none) :
    ((jobEventSets job ts).1.map InputDS.name = ["raw_data"]) ∧
      ((jobEventSets job ts).2.map OutputDS.name = [job ++ "_output"]) ∧
      (∀ (job2 : String) (ts2 : List LT),
        (jobEventSets job2 ts2).1 ≠ [] ∧ (jobEventSets job2 ts2).2 ≠ []) := by
  have hc := collectTables_nil_of ts h
  refine ⟨?_, ?_, ?_⟩
  · simp [jobEventSets, hc, createInputDatasets]
  · simp [jobEventSets, hc, createOutputDatasets]
  · intro job2 ts2
    constructor
    · rw [jobEventSets]
      simp only [createInputDatasets]
      split_ifs with h1 <;> simp [h1]
    · rw [jobEventSets]
      simp only [createOutputDatasets]
      split_ifs with h1 <;> simp [h1]

/-- Witness for `spec_c8`: the empty transform list of a sampled job. -/
theorem spec_c8_wit :
    ((jobEventSets "spark_pipeline" ([] : List LT)).1.map InputDS.name = ["raw_data"]) ∧
      ((jobEventSets "spark_pipeline" ([] : List LT)).2.map OutputDS.name =
        ["spark_pipeline_output"]) := by
  have h := spec_c8 "spark_pipeline" [] (by simp)
  exact ⟨h.1, by simpa using h.2.1⟩

/-- A member on which `f` hits makes `findSome?` hit. -/
theorem findSome_mem_isSome {α β : Type} {f : α → Option β} :
    ∀ {l : List α} {a : α}, a ∈ l → (f a).isSome → (l.findSome? f).isSome := by
  intro l
  induction l with
  | nil => intro a ha _; cases ha
  | cons x xs ih =>
    intro a ha h
    rw [List.findSome?_cons]
    cases hx : f x with
    | some b => simp
    | none =>
      rcases List.mem_cons.1 ha with rfl | ha2
      · rw [hx] at h
        simp at h
      · exact ih ha2 h

/-- A hit of `findSome?` comes from some member. -/
theorem exists_of_findSome {α β : Type} {f : α → Option β} :
    ∀ {l : List α} {b : β}, l.findSome? f = some b → ∃ a, a ∈ l ∧ f a = some b := by
  intro l
  induction l with
  | nil => intro b h; simp [List.findSome?_nil] at h
  | cons x xs ih =>
    intro b h
    rw [List.findSome?_cons] at h
    cases hx : f x with
    | some c =>
      simp only [hx] at h
      exact ⟨x, by simp, by rw [hx]; exact h⟩
    | none =>
      simp only [hx] at h
      obtain ⟨a, ha, hab⟩ := ih h
      exact ⟨a, by simp [ha], hab⟩

/-- An exact-case literal match is also an ignore-case match, for a pattern
whose characters are fixed points of lowercasing. -/
theorem matchLit_mono :
    ∀ (pat : List Char), (∀ k ∈ pat, k.toLower = k) →
      ∀ (s r : List Char), matchLit false pat s = some r → matchLit true pat s = some r := by
  intro pat
  induction pat with
  | nil => intro _ s r h; simpa [matchLit] using h
  | cons k ks ih =>
    intro hp s r h
    cases s with
    | nil => simp [matchLit] at h
    | cons c cs =>
      rw [matchLit] at h ⊢
      by_cases hc : c = k
      · rw [if_pos (by simp [hc])] at h
        rw [if_pos (by simp [hc, hp k (by simp)])]
        exact ih (fun x hx => hp x (by simp [hx])) cs r h
      · rw [if_neg (by simp [hc])] at h
        cases h

/-- An exact-case tail match is also an ignore-case tail match. -/
theorem tailMatch_mono (r2 : List Char) (x : Nat × List Char)
    (h : tailMatch false r2 = some x) : tailMatch true r2 = some x := by
  simp only [tailMatch] at h ⊢
  by_cases h2 : maxRun isPySpace r2 = 0
  · rw [if_pos h2] at h
    cases h
  · rw [if_neg h2] at h ⊢
    cases hm : matchLit false ("from".data) (r2.drop (maxRun isPySpace r2)) with
    | none =>
      rw [hm] at h
      cases h
    | some r4 =>
      rw [hm] at h
      rw [matchLit_mono _ (by decide) _ _ hm]
      exact h

/-- If the strict-lowercase pattern matches at a position, so does the
case-insensitive pattern. -/
theorem matchSelectAt_mono (s : List Char) (h : (matchSelectAt false s).isSome) :
    (matchSelectAt true s).isSome := by
  rw [matchSelectAt] at h ⊢
  cases hm : matchLit false ("select".data) s with
  | none =>
    simp only [hm] at h
    simp at h
  | some rest0 =>
    simp only [hm] at h
    simp only [matchLit_mono _ (by decide) _ _ hm]
    by_cases hw : maxRun isPySpace rest0 = 0
    · rw [if_pos hw] at h
      simp at h
    · rw [if_neg hw] at h ⊢
      obtain ⟨b, hb⟩ := Option.isSome_iff_exists.1 h
      obtain ⟨k, hk, hkb⟩ := exists_of_findSome hb
      obtain ⟨m, hm2, hmb⟩ := exists_of_findSome hkb
      cases ht : tailMatch false (((rest0.drop (maxRun isPySpace rest0 - k)).drop m)) with
      | none =>
        rw [ht] at hmb
        cases hmb
      | some r =>
        refine findSome_mem_isSome hk ?_
        refine findSome_mem_isSome hm2 ?_
        rw [tailMatch_mono _ _ ht]
        simp

/-- If the strict-lowercase scan finds any match, so does the
case-insensitive scan over the same input. -/
theorem findallAux_mono :
    ∀ (fuel : Nat) (s : List Char),
      findallAux false fuel s ≠ [] → findallAux true fuel s ≠ [] := by
  intro fuel
  induction fuel with
  | zero => intro s h; simp [findallAux] at h
  | succ n ih =>
    intro s h
    cases s with
    | nil => simp [findallAux] at h
    | cons c cs =>
      cases hT : matchSelectAt true (c :: cs) with
      | some r => simp [findallAux, hT]
      | none =>
        have hF : matchSelectAt false (c :: cs) = none := by
          cases hF2 : matchSelectAt false (c :: cs) with
          | none => rfl
          | some r2 =>
            have := matchSelectAt_mono (c :: cs) (by rw [hF2]; rfl)
            rw [hT] at this
            cases this
        simp only [findallAux, hF] at h
        simp only [findallAux, hT]
        exact ih cs h

/-- Claim C9: the strict-lowercase secondary pattern of the sql-model parser
is subsumed by the case-insensitive primary pattern — whenever the primary
yields zero matches the secondary also yields zero — so the two-tier match
of lines 113-119 is extensionally the primary pattern alone. -/
theorem spec_c9 (s : List Char) :
    (findall true s = [] → findall false s = []) ∧
      twoTierMatches s = findall true s := by
  have hmono : findall false s ≠ [] → findall true s ≠ [] :=
    findallAux_mono s.length s
  have hzero : findall true s = [] → findall false s = [] := by
    intro h
    by_contra h2
    exact (hmono h2) h
  refine ⟨hzero, ?_⟩
  rw [twoTierMatches]
  split_ifs with h
  · rw [h, hzero h]
  · rfl

/-- Witness for `spec_c9`: on input with no SELECT block, both tiers are
empty and the two-tier result is the primary's. -/
theorem spec_c9_wit : findall false ("x".data) = [] :=
  (spec_c9 ("x".data)).1 rfl

end LineageViewer
